import Mathlib

/-!
Verification development for the `ctxform` context-elimination engine.

The definitions below are a shallow embedding of the Python sources:
  * `Formula` embeds the tagged-tuple AST built by `ctxform/parser.py`
    (the `Operator` enum and the tuples `(head, *args)`);
  * the three-valued connectives and `Valuation.evaluate` embed
    `ctxform/tfeval.py`;
  * `instantiate_context` / `instantiate_formula` embed `ctxform/common.py`;
  * the `Transformer` state, `translate_f` and `make_side` embed
    `ctxform/transform.py`, with `pretty_print` from `ctxform/printer.py`
    (needed for fresh-name generation);
  * `simplify` embeds `ctxform/tfsimp.py` (with a fuel argument standing
    for Python's recursion depth: a `none` result models a call that never
    returns, i.e. a `RecursionError`).

Python dictionaries are embedded as insertion-ordered association lists,
Python exceptions as `Except` / `Option` results.
-/

set_option autoImplicit false

namespace Ctxform

/-- The formula AST: one constructor per member of the `Operator` enum of
`ctxform/parser.py`.  A Python formula is a tuple `(head, *args)`; here each
head is a constructor of fixed arity. -/
inductive Formula where
  | lit (b : Bool)
  | var (name : String)
  | ctx (name : String) (body : Formula)
  | hole
  | negation (a : Formula)
  | disjunction (a b : Formula)
  | conjunction (a b : Formula)
  | implication (a b : Formula)
  | exclusion (a b : Formula)
  | equivalence (a b : Formula)
  | next (a : Formula)
  | eventually (a : Formula)
  | always (a : Formula)
  | untl (a b : Formula)
  | wuntl (a b : Formula)
  | release (a b : Formula)
  | srelease (a b : Formula)
  | forAllQ (a : Formula)
  | existsQ (a : Formula)
  deriving DecidableEq, Repr, Inhabited

/-! ### Three-valued connectives (`ctxform/tfeval.py`, lines 24-45)

The Python value domain is `{True, False, None}`; we embed it as
`Option Bool` with `none` standing for `None` (unknown).  `truthy` embeds
Python's truthiness on this domain (`None` and `False` are falsy). -/

/-- Python truthiness on the three-valued domain: only `True` is truthy. -/
def truthy (a : Option Bool) : Bool := a == some true

/-- `_negation` from `tfeval.py`: `None if arg is None else not arg`. -/
def tfNegation (a : Option Bool) : Option Bool :=
  match a with
  | none => none
  | some b => some (!b)

/-- `_conjunction` from `tfeval.py`:
`None if (left is None or right is None) else (True if (left and right) else False)`. -/
def tfConjunction (l r : Option Bool) : Option Bool :=
  if l = none ∨ r = none then none
  else if truthy l && truthy r then some true else some false

/-- `_disjunction` from `tfeval.py`:
`True if (left or right) else (None if (left is None or right is None) else False)`. -/
def tfDisjunction (l r : Option Bool) : Option Bool :=
  if truthy l || truthy r then some true
  else if l = none ∨ r = none then none else some false

/-- `_implication` from `tfeval.py`:
`True if (left is False or right) else (None if (left is None or right is None) else False)`. -/
def tfImplication (l r : Option Bool) : Option Bool :=
  if l == some false || truthy r then some true
  else if l = none ∨ r = none then none else some false

/-- `_equivalence` from `tfeval.py`:
`None if (left is None or right is None) else (left == right)`. -/
def tfEquivalence (l r : Option Bool) : Option Bool :=
  if l = none ∨ r = none then none else some (l == r)

/-- `_exclusion` from `tfeval.py`:
`None if (left is None or right is None) else (left != right)`. -/
def tfExclusion (l r : Option Bool) : Option Bool :=
  if l = none ∨ r = none then none else some (l != r)

/-! ### The ternary periodic-trace evaluator (`ctxform/tfeval.py`) -/

/-- A trace in a valuation (`Trace` in `tfeval.py`): a pair of a prefix
segment and a cycle segment of three-valued truth values. -/
abbrev Trace := List (Option Bool) × List (Option Bool)

/-- The Python exceptions that `Valuation.evaluate` and its helpers can
raise. -/
inductive EvalErr where
  /-- `KeyError` from a `self.d[...]` lookup. -/
  | keyErr
  /-- `ValueError` from evaluating a hole or an unknown head. -/
  | valueErr
  /-- `TypeError` from `tuple(None)` in `evaluate_eventually`. -/
  | typeErr
  /-- `IndexError` from an out-of-range list read or write. -/
  | indexErr
  deriving DecidableEq, Repr

/-- Bounds-checked list read, embedding Python's `l[k]` on a non-negative
index (raises `IndexError` when out of range). -/
def listGet {α : Type} (l : List α) (k : Nat) : Except EvalErr α :=
  match l.get? k with
  | some a => .ok a
  | none => .error .indexErr

/-- Bounds-checked list write, embedding Python's `l[k] = a` on a
non-negative index (raises `IndexError` when out of range). -/
def listSet {α : Type} (l : List α) (k : Nat) (a : α) : Except EvalErr (List α) :=
  if k < l.length then .ok (l.set k a) else .error .indexErr

/-- The `Valuation` object of `tfeval.py`.  Its dictionary `d` maps both
string keys (atomic propositions) and formula keys (added by callers such as
`witness_run`) to traces; as a Python `str` never equals a tuple, we split it
into the two association lists `ds` and `df`.  `prefix_len` and `cycle_len`
are the lengths stored by the constructor. -/
structure Valuation where
  ds : List (String × Trace)
  df : List (Formula × Trace)
  prefix_len : Nat
  cycle_len : Nat

/-- `evaluate_binary_raw` from `tfeval.py`: pointwise combination of two
traces (Python's `zip` truncates to the shorter list, as `zipWith` does). -/
def evaluateBinaryRaw (a b : Trace) (fn : Option Bool → Option Bool → Option Bool) : Trace :=
  (List.zipWith fn a.1 b.1, List.zipWith fn a.2 b.2)

/-- The `for k in reversed(range(len(prefix)))` loop in the `None in cycle`
branch of `evaluate_eventually`.  The Python body rebinds the *whole list*
variable (`new_prefix = None`) instead of one entry, so the threaded state is
an optional list; `ks` holds the remaining indices, and a truthy step breaks
out of the loop. -/
def eventuallyUnknownLoop (pre : List (Option Bool)) :
    List Nat → Option (List (Option Bool)) → Option (List (Option Bool))
  | [], newPre => newPre
  | k :: ks, newPre =>
    if truthy (pre.getD k none) then newPre
    else eventuallyUnknownLoop pre ks none

/-- The backward loop of the all-false-cycle branch of
`evaluate_eventually`: state `(new_prefix, value)`, breaking on a truthy
step, demoting `value` to unknown on an unknown step, then writing `value`
at the current index. -/
def eventuallyFalseLoop (pre : List (Option Bool)) :
    List Nat → List (Option Bool) → Option Bool → List (Option Bool)
  | [], newPre, _ => newPre
  | k :: ks, newPre, value =>
    if truthy (pre.getD k none) then newPre
    else
      let value := if pre.getD k none = none then none else value
      eventuallyFalseLoop pre ks (newPre.set k value) value

/-- `Valuation.evaluate_eventually` from `tfeval.py`.  In the
`None in cycle` branch the loop assigns `None` to the whole `new_prefix`
variable, and the subsequent `tuple(new_prefix)` raises a `TypeError`; we
return `.error .typeErr` in that case. -/
def evaluateEventually (a : Trace) : Except EvalErr Trace :=
  let (pre, cyc) := a
  if cyc.contains (some true) then
    .ok (List.replicate pre.length (some true), List.replicate cyc.length (some true))
  else if cyc.contains none then
    match eventuallyUnknownLoop pre (List.range pre.length).reverse
        (some (List.replicate pre.length (some true))) with
    | some newPre => .ok (newPre, List.replicate cyc.length none)
    | none => .error .typeErr
  else
    .ok (eventuallyFalseLoop pre (List.range pre.length).reverse
          (List.replicate pre.length (some true)) (some false),
         List.replicate cyc.length (some false))

/-- The backward loop of `evaluate_always` over the prefix: set `True`
while the step is truthy, break otherwise. -/
def alwaysLoop (pre : List (Option Bool)) :
    List Nat → List (Option Bool) → List (Option Bool)
  | [], newPre => newPre
  | k :: ks, newPre =>
    if truthy (pre.getD k none) then alwaysLoop pre ks (newPre.set k (some true))
    else newPre

/-- `Valuation.evaluate_always` from `tfeval.py`. -/
def evaluateAlways (a : Trace) : Trace :=
  let (pre, cyc) := a
  if cyc.contains (some false) then
    (List.replicate pre.length (some false), List.replicate cyc.length (some false))
  else if cyc.contains none then
    (List.replicate pre.length none, List.replicate cyc.length none)
  else
    (alwaysLoop pre (List.range pre.length).reverse (List.replicate pre.length (some false)),
     List.replicate cyc.length (some true))

/-- The `for k, v in enumerate(seg): if v: out[k] = True` marking loops of
`evaluate_until` (`k` is the running index into `out`). -/
def markTrue : List (Option Bool) → Nat → List (Option Bool) →
    Except EvalErr (List (Option Bool))
  | [], _, out => .ok out
  | v :: vs, k, out => do
    let out ← if truthy v then listSet out k (some true) else pure out
    markTrue vs (k + 1) out

/-- Body of the backward-propagation loops of `evaluate_until`: `ks` is the
index sequence, the state is `(out, prev)` where `out` is `new_cycle`.
Reads follow Python's short-circuit evaluation order (`c2` is only read
when `c1[k] is False` and the first condition failed). -/
def untilLoop (c1 c2 : List (Option Bool)) :
    List Nat → List (Option Bool) → Option Bool →
    Except EvalErr (List (Option Bool) × Option Bool)
  | [], out, prev => .ok (out, prev)
  | k :: ks, out, prev => do
    let c1k ← listGet c1 k
    let out ←
      if truthy prev && truthy c1k then listSet out k (some true)
      else if c1k == some false then do
        let c2k ← listGet c2 k
        if c2k == some false then listSet out k (some false) else pure out
      else pure out
    let prev ← listGet out k
    untilLoop c1 c2 ks out prev

/-- `Valuation.evaluate_until` from `tfeval.py`.  The two stabilization
rounds over the cycle are the doubled index list; the final "Propagate in
the prefix" loop iterates over the prefix indices but reads and writes
`new_cycle`, exactly as the source does. -/
def evaluateUntil (a b : Trace) : Except EvalErr Trace := do
  let (pre1, cyc1) := a
  let (pre2, cyc2) := b
  let newPre := List.replicate pre1.length (none : Option Bool)
  let newCyc := List.replicate cyc1.length (none : Option Bool)
  -- Set true where b holds
  let newPre ← markTrue pre2 0 newPre
  let newCyc ← markTrue cyc2 0 newCyc
  -- Propagate true where b holds
  let prev ← listGet newCyc 0
  let (newCyc, prev) ←
    if cyc2.contains (some true) then
      untilLoop cyc1 cyc2
        ((List.range cyc1.length).reverse ++ (List.range cyc1.length).reverse) newCyc prev
    else
      pure (List.replicate newCyc.length (some false), some false)
  -- Propagate in the prefix (into `new_cycle`, as in the source)
  let (newCyc, _) ← untilLoop pre1 pre2 (List.range pre1.length).reverse newCyc prev
  return (newPre, newCyc)

/-- `Valuation.evaluate_wuntil` from `tfeval.py`:
`Until(a,b) ∨ Always(a)` pointwise. -/
def evaluateWuntl (a b : Trace) : Except EvalErr Trace := do
  let u ← evaluateUntil a b
  return evaluateBinaryRaw u (evaluateAlways a) tfDisjunction

/-- `Valuation.evaluate` from `tfeval.py`.  `evaluate_binary` is inlined
into the binary-operator cases (it just evaluates both arguments and
combines them with `evaluate_binary_raw`).  The `FORALL`/`EXISTS` heads have
no case in the source and fall through to `raise ValueError`. -/
def Valuation.evaluate (val : Valuation) : Formula → Except EvalErr Trace
  | .var name =>
    match val.ds.lookup name with
    | some values => .ok values
    | none => .ok (List.replicate val.prefix_len none, List.replicate val.cycle_len none)
  | .lit b =>
    .ok (List.replicate val.prefix_len (some b), List.replicate val.cycle_len (some b))
  | .hole => .error .valueErr
  | .ctx _ body =>
    -- `self.d[args[1]]`: a lookup keyed by the context's argument formula
    match val.df.lookup body with
    | some t => .ok t
    | none => .error .keyErr
  | .negation a => do
    let (p, c) ← val.evaluate a
    return (p.map tfNegation, c.map tfNegation)
  | .conjunction a b => do
    return evaluateBinaryRaw (← val.evaluate a) (← val.evaluate b) tfConjunction
  | .disjunction a b => do
    return evaluateBinaryRaw (← val.evaluate a) (← val.evaluate b) tfDisjunction
  | .exclusion a b => do
    return evaluateBinaryRaw (← val.evaluate a) (← val.evaluate b) tfExclusion
  | .implication a b => do
    return evaluateBinaryRaw (← val.evaluate a) (← val.evaluate b) tfImplication
  | .equivalence a b => do
    return evaluateBinaryRaw (← val.evaluate a) (← val.evaluate b) tfEquivalence
  | .next a => do
    let (p, c) ← val.evaluate a
    return (p.drop 1 ++ c.take 1, c.drop 1 ++ c.take 1)
  | .always a => do
    return evaluateAlways (← val.evaluate a)
  | .eventually a => do
    evaluateEventually (← val.evaluate a)
  | .untl a b => do
    evaluateUntil (← val.evaluate a) (← val.evaluate b)
  | .wuntl a b => do
    evaluateWuntl (← val.evaluate a) (← val.evaluate b)
  | .release a b => do
    let right ← val.evaluate b
    let andPart := evaluateBinaryRaw (← val.evaluate a) right tfConjunction
    evaluateWuntl right andPart
  | .srelease a b => do
    let right ← val.evaluate b
    let andPart := evaluateBinaryRaw (← val.evaluate a) right tfConjunction
    evaluateUntil right andPart
  | .forAllQ _ => .error .valueErr
  | .existsQ _ => .error .valueErr

/-! ### Formula algebra (`ctxform/common.py`) -/

/-- `instantiate_context` from `ctxform/common.py`: substitute `replacement`
for the holes of `context`.  The source performs no invariant check: it
silently substitutes every reachable hole, recursing also into nested
context bodies. -/
def instantiate_context : Formula → Formula → Formula
  | .hole, replacement => replacement
  | .var n, _ => .var n
  | .lit b, _ => .lit b
  | .ctx n body, replacement => .ctx n (instantiate_context body replacement)
  | .negation a, r => .negation (instantiate_context a r)
  | .disjunction a b, r => .disjunction (instantiate_context a r) (instantiate_context b r)
  | .conjunction a b, r => .conjunction (instantiate_context a r) (instantiate_context b r)
  | .implication a b, r => .implication (instantiate_context a r) (instantiate_context b r)
  | .exclusion a b, r => .exclusion (instantiate_context a r) (instantiate_context b r)
  | .equivalence a b, r => .equivalence (instantiate_context a r) (instantiate_context b r)
  | .next a, r => .next (instantiate_context a r)
  | .eventually a, r => .eventually (instantiate_context a r)
  | .always a, r => .always (instantiate_context a r)
  | .untl a b, r => .untl (instantiate_context a r) (instantiate_context b r)
  | .wuntl a b, r => .wuntl (instantiate_context a r) (instantiate_context b r)
  | .release a b, r => .release (instantiate_context a r) (instantiate_context b r)
  | .srelease a b, r => .srelease (instantiate_context a r) (instantiate_context b r)
  | .forAllQ a, r => .forAllQ (instantiate_context a r)
  | .existsQ a, r => .existsQ (instantiate_context a r)

/-- `instantiate_formula` from `ctxform/common.py` (the replacement map is
passed first to keep the recursion uniform).  A bare hole raises
`ValueError`.  For a context node whose name is bound, the hole of the
replacement is filled with the recursively instantiated body; every formula
is a truthy (non-empty) tuple, so `if replacement := replacements.get(...)`
distinguishes exactly the bound names. -/
def instantiate_formula (repl : String → Option Formula) : Formula → Except String Formula
  | .var n => .ok (.var n)
  | .lit b => .ok (.lit b)
  | .ctx n body => do
    let arg ← instantiate_formula repl body
    match repl n with
    | some replacement => .ok (instantiate_context replacement arg)
    | none => .ok (.ctx n arg)
  | .hole => .error "instantiate_formula applied to formula with holes"
  | .negation a => do .ok (.negation (← instantiate_formula repl a))
  | .disjunction a b => do
    .ok (.disjunction (← instantiate_formula repl a) (← instantiate_formula repl b))
  | .conjunction a b => do
    .ok (.conjunction (← instantiate_formula repl a) (← instantiate_formula repl b))
  | .implication a b => do
    .ok (.implication (← instantiate_formula repl a) (← instantiate_formula repl b))
  | .exclusion a b => do
    .ok (.exclusion (← instantiate_formula repl a) (← instantiate_formula repl b))
  | .equivalence a b => do
    .ok (.equivalence (← instantiate_formula repl a) (← instantiate_formula repl b))
  | .next a => do .ok (.next (← instantiate_formula repl a))
  | .eventually a => do .ok (.eventually (← instantiate_formula repl a))
  | .always a => do .ok (.always (← instantiate_formula repl a))
  | .untl a b => do
    .ok (.untl (← instantiate_formula repl a) (← instantiate_formula repl b))
  | .wuntl a b => do
    .ok (.wuntl (← instantiate_formula repl a) (← instantiate_formula repl b))
  | .release a b => do
    .ok (.release (← instantiate_formula repl a) (← instantiate_formula repl b))
  | .srelease a b => do
    .ok (.srelease (← instantiate_formula repl a) (← instantiate_formula repl b))
  | .forAllQ a => do .ok (.forAllQ (← instantiate_formula repl a))
  | .existsQ a => do .ok (.existsQ (← instantiate_formula repl a))

/-! ### The formula simplifier (`ctxform/tfsimp.py`) -/

/-- `_is_true` from `tfsimp.py`: `formula[0] == Op.LIT and formula[1]`. -/
def isTrueLit : Formula → Bool
  | .lit b => b
  | _ => false

/-- `_is_false` from `tfsimp.py`: `formula[0] == Op.LIT and not formula[1]`. -/
def isFalseLit : Formula → Bool
  | .lit b => !b
  | _ => false

/-- `_negate` from `tfsimp.py`: strip a top-level negation, else negate. -/
def negate : Formula → Formula
  | .negation x => x
  | f => .negation f

/-- The unary temporal/quantifier heads treated jointly by `simplify`
(`Op.NEXT | Op.ALWAYS | Op.EVENTUALLY | Op.FORALL | Op.EXISTS`). -/
inductive UnOp where
  | next | always | eventually | forAllQ | existsQ
  deriving DecidableEq, Repr

/-- Rebuild a unary head over an argument (the tuple `(head, arg)`). -/
def UnOp.apply : UnOp → Formula → Formula
  | .next => .next
  | .always => .always
  | .eventually => .eventually
  | .forAllQ => .forAllQ
  | .existsQ => .existsQ

/-- `_dual_operator` from `tfsimp.py` (identity on `Op.NEXT`). -/
def dualOperator : UnOp → UnOp
  | .always => .eventually
  | .eventually => .always
  | .forAllQ => .existsQ
  | .existsQ => .forAllQ
  | .next => .next

/-- The shared top-level rule of `simplify` for the unary
temporal/quantifier operators: a literal child propagates, a negated child
is rewritten by duality, otherwise the node is rebuilt over the simplified
child. -/
def simpUnary (head : UnOp) (arg : Formula) : Formula :=
  match arg with
  | .lit b => .lit b
  | .negation x => .negation ((dualOperator head).apply x)
  | _ => head.apply arg

/-- `simplify` from `ctxform/tfsimp.py`.  `fuel` bounds the recursion depth
(Python's call stack); a `none` result models a call that never returns
(`RecursionError`).  Each case simplifies the children first, then applies
the top-level rules; where no top-level rule fires the source returns the
*original* `formula` (with its unsimplified children), and the `Op.CTX`
argument-simplification step recurses on `formula` itself (the stray
`print(args)` in the negation case only writes to stdout). -/
def simplify : Nat → Formula → List (String × Bool) → Option Formula
  | 0, _, _ => none
  | fuel + 1, formula, valuation =>
    match formula with
    | .lit b => some (.lit b)
    | .hole => some .hole
    | .var name =>
      match valuation.lookup name with
      | some value => some (.lit value)
      | none => some (.var name)
    | .ctx name body => do
      let _ ← simplify fuel (.ctx name body) valuation
      some (.ctx name body)
    | .negation a => do
      let a' ← simplify fuel a valuation
      match a' with
      | .lit b => some (.lit (!b))
      | .negation x => some x
      | _ => some (.negation a)
    | .disjunction a b => do
      let a' ← simplify fuel a valuation
      let b' ← simplify fuel b valuation
      if isTrueLit a' || isTrueLit b' then some (.lit true)
      else if isFalseLit a' then some b'
      else if isFalseLit b' || a' == b' then some a'
      else some (.disjunction a b)
    | .conjunction a b => do
      let a' ← simplify fuel a valuation
      let b' ← simplify fuel b valuation
      if isFalseLit a' || isFalseLit b' then some (.lit false)
      else if isTrueLit a' then some b'
      else if isTrueLit b' || a' == b' then some a'
      else some (.conjunction a b)
    | .implication a b => do
      let a' ← simplify fuel a valuation
      let b' ← simplify fuel b valuation
      if isFalseLit a' || isTrueLit b' then some (.lit true)
      else if isTrueLit a' then some b'
      else if isFalseLit b' then some (negate a')
      else some (.implication a b)
    | .equivalence a b => do
      let a' ← simplify fuel a valuation
      let b' ← simplify fuel b valuation
      if isTrueLit a' then some b'
      else if isTrueLit b' then some a'
      else if isFalseLit a' then some (negate b')
      else if isFalseLit b' then some (negate a')
      else some (.equivalence a b)
    | .exclusion a b => do
      let a' ← simplify fuel a valuation
      let b' ← simplify fuel b valuation
      if isTrueLit a' then some (negate b')
      else if isTrueLit b' then some (negate a')
      else if isFalseLit a' then some b'
      else if isFalseLit b' then some a'
      else some (.exclusion a b)
    | .next a => do
      some (simpUnary .next (← simplify fuel a valuation))
    | .always a => do
      some (simpUnary .always (← simplify fuel a valuation))
    | .eventually a => do
      some (simpUnary .eventually (← simplify fuel a valuation))
    | .forAllQ a => do
      some (simpUnary .forAllQ (← simplify fuel a valuation))
    | .existsQ a => do
      some (simpUnary .existsQ (← simplify fuel a valuation))
    | .untl a b => do
      let a' ← simplify fuel a valuation
      let b' ← simplify fuel b valuation
      if isTrueLit b' then some (.lit true)
      else if isFalseLit b' then some (.lit false)
      else if isFalseLit a' then some b'
      else if isTrueLit a' then some (.eventually b')
      else some (.untl a b)
    | .wuntl a b => do
      let a' ← simplify fuel a valuation
      let b' ← simplify fuel b valuation
      if isTrueLit a' || isTrueLit b' then some (.lit true)
      else if isFalseLit b' then some (.always a')
      else if isFalseLit a' then some b'
      else some (.wuntl a b)
    | .release a b => do
      let a' ← simplify fuel a valuation
      let b' ← simplify fuel b valuation
      if isTrueLit a' || isTrueLit b' then some (.lit true)
      else if isFalseLit a' then some (.always b')
      else if isFalseLit b' then some (.lit false)
      else some (.release a b)
    | .srelease a b => do
      let a' ← simplify fuel a valuation
      let b' ← simplify fuel b valuation
      if isFalseLit a' || isFalseLit b' then some (.lit false)
      else if isTrueLit a' then some b'
      else if isTrueLit b' then some (.eventually a')
      else some (.srelease a b)

/-! ### The pretty printer (`ctxform/printer.py`)

Only the `color=False` configuration (identity colorizer) is embedded: it is
the one `Transformer._translate` uses to derive fresh proposition names.
The operator-symbol string literals of `printer.py` are double-encoded
UTF-8, so the Python strings contain mojibake characters; they are
reproduced verbatim below via `\u` escapes. -/

/-- `_put_parens` from `printer.py`. -/
def putParens (pair : String × Nat) (priority : Nat) : String :=
  if pair.2 ≤ priority then "(" ++ pair.1 ++ ")" else pair.1

/-- Render a unary operator node: `f'{symbol}{pp_args[0]}'`. -/
def prettyUnary (symbol : String) (prio : Nat) (arg : String × Nat) : String × Nat :=
  (symbol ++ putParens arg prio, prio)

/-- Render a binary operator node: `f' {symbol} '.join(pp_args)`. -/
def prettyBinary (symbol : String) (prio : Nat) (l r : String × Nat) : String × Nat :=
  (putParens l prio ++ " " ++ symbol ++ " " ++ putParens r prio, prio)

/-- `_pretty_print` from `ctxform/printer.py` with the identity colorizer:
returns the rendering and its priority; symbols and priorities are those of
`PRETTY_MAP`. -/
def prettyPrintAux : Formula → String × Nat
  | .var name => (name, 6)
  | .lit b => (if b then "true" else "false", 6)
  | .ctx name body => (name ++ "[" ++ (prettyPrintAux body).1 ++ "]", 6)
  | .hole => ("ðŸ•³", 6)
  | .negation a => prettyUnary "Â¬" 5 (prettyPrintAux a)
  | .disjunction a b => prettyBinary "âˆ¨" 2 (prettyPrintAux a) (prettyPrintAux b)
  | .conjunction a b => prettyBinary "âˆ§" 3 (prettyPrintAux a) (prettyPrintAux b)
  | .implication a b => prettyBinary "â†’" 0 (prettyPrintAux a) (prettyPrintAux b)
  | .exclusion a b => prettyBinary "âŠ•" 1 (prettyPrintAux a) (prettyPrintAux b)
  | .equivalence a b => prettyBinary "â†”" 0 (prettyPrintAux a) (prettyPrintAux b)
  | .next a => prettyUnary "X" 5 (prettyPrintAux a)
  | .eventually a => prettyUnary "F" 5 (prettyPrintAux a)
  | .always a => prettyUnary "G" 5 (prettyPrintAux a)
  | .untl a b => prettyBinary "U" 4 (prettyPrintAux a) (prettyPrintAux b)
  | .wuntl a b => prettyBinary "W" 4 (prettyPrintAux a) (prettyPrintAux b)
  | .release a b => prettyBinary "R" 4 (prettyPrintAux a) (prettyPrintAux b)
  | .srelease a b => prettyBinary "M" 4 (prettyPrintAux a) (prettyPrintAux b)
  | .forAllQ a => prettyUnary "A" 5 (prettyPrintAux a)
  | .existsQ a => prettyUnary "E" 5 (prettyPrintAux a)

/-- `pretty_print(ast, color=False)` from `printer.py`. -/
def pretty_print (f : Formula) : String := (prettyPrintAux f).1

/-! ### The context-elimination transformer (`ctxform/transform.py`) -/

/-- The mutable state of a `Transformer`: the occurrence table `ctx_map`
(context name → argument formula → fresh proposition) and the reverse index
`ctx_ap_map` (fresh proposition → context name and argument), embedded as
insertion-ordered association lists (Python dictionaries preserve insertion
order, and updating an existing key keeps its position). -/
structure TState where
  ctx_map : List (String × List (Formula × String))
  ctx_ap_map : List (String × (String × Formula))
  deriving DecidableEq, Repr

/-- The state of a freshly constructed `Transformer`. -/
def initState : TState := ⟨[], []⟩

/-- `d[k] = v` on an insertion-ordered association list: update an existing
key in place, or append a new binding at the end. -/
def dictSet {K V : Type} [DecidableEq K] : List (K × V) → K → V → List (K × V)
  | [], k, v => [(k, v)]
  | (k', v') :: rest, k, v =>
    if k' = k then (k', v) :: rest else (k', v') :: dictSet rest k v

/-- `self.ctx_map.setdefault(name, {})[arg] = v`. -/
def ctxMapAdd : List (String × List (Formula × String)) → String → Formula → String →
    List (String × List (Formula × String))
  | [], name, arg, v => [(name, [(arg, v)])]
  | (n', inner) :: rest, name, arg, v =>
    if n' = name then (n', dictSet inner arg v) :: rest
    else (n', inner) :: ctxMapAdd rest name arg v

/-- Python's `.replace('"', '')` on a string: as the pattern is the single
double-quote character, it removes every occurrence of that character. -/
def stripQuotes (s : String) : String := ⟨s.data.filter (fun ch => ch ≠ '"')⟩

/-- The fresh proposition name derived in `Transformer._translate`:
`f'"{name}[{arg_str}]"'` with
`arg_str = pretty_print(arg, color=False).replace('"', '')`. -/
def freshName (name : String) (arg : Formula) : String :=
  "\"" ++ name ++ "[" ++ stripQuotes (pretty_print arg) ++ "]\""

/-- `Transformer._translate` from `ctxform/transform.py` with the mutable
`self` state threaded explicitly (left to right through subterms).  A
context node first translates its argument, then reuses the proposition
recorded for `(name, arg)` or creates a fresh one, recording it in both
tables. -/
def translateF : TState → Formula → Formula × TState
  | st, .var n => (.var n, st)
  | st, .lit b => (.lit b, st)
  | st, .ctx name body =>
    let (arg, st) := translateF st body
    match ((st.ctx_map.lookup name).getD []).lookup arg with
    | some replVar => (.var replVar, st)
    | none =>
      let replVar := freshName name arg
      (.var replVar,
       { ctx_map := ctxMapAdd st.ctx_map name arg replVar,
         ctx_ap_map := dictSet st.ctx_ap_map replVar (name, arg) })
  | st, .hole => (.hole, st)
  | st, .negation a =>
    let (a', st) := translateF st a
    (.negation a', st)
  | st, .disjunction a b =>
    let (a', st) := translateF st a
    let (b', st) := translateF st b
    (.disjunction a' b', st)
  | st, .conjunction a b =>
    let (a', st) := translateF st a
    let (b', st) := translateF st b
    (.conjunction a' b', st)
  | st, .implication a b =>
    let (a', st) := translateF st a
    let (b', st) := translateF st b
    (.implication a' b', st)
  | st, .exclusion a b =>
    let (a', st) := translateF st a
    let (b', st) := translateF st b
    (.exclusion a' b', st)
  | st, .equivalence a b =>
    let (a', st) := translateF st a
    let (b', st) := translateF st b
    (.equivalence a' b', st)
  | st, .next a =>
    let (a', st) := translateF st a
    (.next a', st)
  | st, .eventually a =>
    let (a', st) := translateF st a
    (.eventually a', st)
  | st, .always a =>
    let (a', st) := translateF st a
    (.always a', st)
  | st, .untl a b =>
    let (a', st) := translateF st a
    let (b', st) := translateF st b
    (.untl a' b', st)
  | st, .wuntl a b =>
    let (a', st) := translateF st a
    let (b', st) := translateF st b
    (.wuntl a' b', st)
  | st, .release a b =>
    let (a', st) := translateF st a
    let (b', st) := translateF st b
    (.release a' b', st)
  | st, .srelease a b =>
    let (a', st) := translateF st a
    let (b', st) := translateF st b
    (.srelease a' b', st)
  | st, .forAllQ a =>
    let (a', st) := translateF st a
    (.forAllQ a', st)
  | st, .existsQ a =>
    let (a', st) := translateF st a
    (.existsQ a', st)

/-- `itertools.permutations(l, 2)`: all ordered pairs of entries at distinct
positions in the library's enumeration order (`pre` accumulates the
elements before the current head). -/
def perm2Aux {α : Type} (pre : List α) : List α → List (α × α)
  | [] => []
  | x :: xs => ((pre ++ xs).map (fun y => (x, y))) ++ perm2Aux (pre ++ [x]) xs

/-- `itertools.permutations(l, r=2)`. -/
def permutations2 {α : Type} (l : List α) : List (α × α) := perm2Aux [] l

/-- `itertools.combinations(l, r=2)`: position-ordered unordered pairs. -/
def combinations2 {α : Type} : List α → List (α × α)
  | [] => []
  | x :: xs => (xs.map (fun y => (x, y))) ++ combinations2 xs

/-- One clause of the consistency condition as assembled in
`Transformer._make_side`:
`wrap(Implies(wrap(op(p_arg, q_arg)), op(Var(p_var), Var(q_var))))`. -/
def sideClause (wrap : Formula → Formula) (op : Formula → Formula → Formula)
    (p q : Formula × String) : Formula :=
  wrap (.implication (wrap (op p.1 q.1)) (op (.var p.2) (.var q.2)))

/-- `Transformer._make_side`: iterate the occurrence table; for each context
variable enumerate the ordered (monotonic) or unordered (general) pairs of
its occurrences and conjoin one clause per pair; return `Literal(true)` when
no clause was produced. -/
def makeSide (monotonic : Bool) (wrap : Formula → Formula)
    (cm : List (String × List (Formula × String))) : Formula :=
  let op : Formula → Formula → Formula :=
    if monotonic then .implication else .equivalence
  let selector : List (Formula × String) → List ((Formula × String) × (Formula × String)) :=
    if monotonic then permutations2 else combinations2
  let formula := cm.foldl (fun acc e =>
    (selector e.2).foldl (fun acc pq =>
      let clause := sideClause wrap op pq.1 pq.2
      match acc with
      | none => some clause
      | some f => some (.conjunction f clause)) acc) none
  formula.getD (.lit true)

/-- `Transformer.translate` on a freshly constructed transformer: translate
both formulas through the shared occurrence table, then build the side
condition.  The final table state (the transformer's observable `ctx_map`
and `ctx_ap_map` fields) is returned alongside the three formulas. -/
def translate (monotonic : Bool) (wrap : Formula → Formula) (left right : Formula) :
    Formula × Formula × Formula × TState :=
  let (leftT, st) := translateF initState left
  let (rightT, st) := translateF st right
  (leftT, rightT, makeSide monotonic wrap st.ctx_map, st)

/-- `LTLSpec.wrap_premise` from `ctxform/ltl.py`: wrap with `Always`. -/
def ltlWrap (premise : Formula) : Formula := .always premise

/-- `BoolSpec.wrap_premise` from `ctxform/bool.py`: Boolean premises are
not wrapped (identity). -/
def boolWrap (premise : Formula) : Formula := premise

/-- `CTLSpec.wrap_premise` from `ctxform/ctl.py`: wrap with
`ForAll(Always(...))`. -/
def ctlWrap (premise : Formula) : Formula := .forAllQ (.always premise)

/-! ### Notions used to state the claims -/

/-- The infinite Boolean word denoted by a fully-defined lasso: position
`k < P` reads the prefix, position `k ≥ P` reads cycle index
`(k − P) mod C`. -/
def lassoWord (pre cyc : List Bool) (k : Nat) : Bool :=
  if k < pre.length then pre.getD k false
  else cyc.getD ((k - pre.length) % cyc.length) false

/-- Classical two-valued semantics of `Until` on an infinite word: `b`
holds at some position `j ≥ k` and `a` holds at every position from `k`
up to (excluding) `j`. -/
def untilSat (a b : Nat → Bool) (k : Nat) : Prop :=
  ∃ j, k ≤ j ∧ b j = true ∧ ∀ i, k ≤ i → i < j → a i = true

/-- Whether a formula contains no `Hole` node. -/
def holeFree : Formula → Bool
  | .hole => false
  | .lit _ => true
  | .var _ => true
  | .ctx _ body => holeFree body
  | .negation a => holeFree a
  | .disjunction a b => holeFree a && holeFree b
  | .conjunction a b => holeFree a && holeFree b
  | .implication a b => holeFree a && holeFree b
  | .exclusion a b => holeFree a && holeFree b
  | .equivalence a b => holeFree a && holeFree b
  | .next a => holeFree a
  | .eventually a => holeFree a
  | .always a => holeFree a
  | .untl a b => holeFree a && holeFree b
  | .wuntl a b => holeFree a && holeFree b
  | .release a b => holeFree a && holeFree b
  | .srelease a b => holeFree a && holeFree b
  | .forAllQ a => holeFree a
  | .existsQ a => holeFree a

/-- Whether a formula contains no `Context` node. -/
def noCtx : Formula → Bool
  | .ctx _ _ => false
  | .hole => true
  | .lit _ => true
  | .var _ => true
  | .negation a => noCtx a
  | .disjunction a b => noCtx a && noCtx b
  | .conjunction a b => noCtx a && noCtx b
  | .implication a b => noCtx a && noCtx b
  | .exclusion a b => noCtx a && noCtx b
  | .equivalence a b => noCtx a && noCtx b
  | .next a => noCtx a
  | .eventually a => noCtx a
  | .always a => noCtx a
  | .untl a b => noCtx a && noCtx b
  | .wuntl a b => noCtx a && noCtx b
  | .release a b => noCtx a && noCtx b
  | .srelease a b => noCtx a && noCtx b
  | .forAllQ a => noCtx a
  | .existsQ a => noCtx a

/-- The names of the `Variable` leaves occurring in a formula. -/
def varNames : Formula → List String
  | .var n => [n]
  | .lit _ => []
  | .hole => []
  | .ctx _ body => varNames body
  | .negation a => varNames a
  | .disjunction a b => varNames a ++ varNames b
  | .conjunction a b => varNames a ++ varNames b
  | .implication a b => varNames a ++ varNames b
  | .exclusion a b => varNames a ++ varNames b
  | .equivalence a b => varNames a ++ varNames b
  | .next a => varNames a
  | .eventually a => varNames a
  | .always a => varNames a
  | .untl a b => varNames a ++ varNames b
  | .wuntl a b => varNames a ++ varNames b
  | .release a b => varNames a ++ varNames b
  | .srelease a b => varNames a ++ varNames b
  | .forAllQ a => varNames a
  | .existsQ a => varNames a

/-- All fresh proposition names recorded in an occurrence table (the values
of the nested dictionaries of `ctx_map`). -/
def ctxMapValues (cm : List (String × List (Formula × String))) : List String :=
  cm.flatMap (fun e => e.2.map (fun p => p.2))

/-- Whether a string starts with the double-quote character. -/
def startsWithQuote (s : String) : Bool := s.data.head? == some '"'

/-- Whether a formula is a top-level conjunction. -/
def isConj : Formula → Bool
  | .conjunction _ _ => true
  | _ => false

/-- The number of conjuncts along the top-level conjunction spine of a
formula (the clauses of a left-nested conjunction of non-conjunction
clauses). -/
def spineCount : Formula → Nat
  | .conjunction a b => spineCount a + spineCount b
  | _ => 1

/-- The number of clause pairs the spec predicts for one context variable
with `n` occurrences: `n·(n−1)` ordered pairs in monotonic mode,
`n·(n−1)/2` unordered pairs in general mode. -/
def pairCount (monotonic : Bool) (n : Nat) : Nat :=
  if monotonic then n * (n - 1) else n * (n - 1) / 2

/-- The total clause count the spec predicts for an occurrence table. -/
def sideCount (monotonic : Bool) (cm : List (String × List (Formula × String))) : Nat :=
  (cm.map (fun e => pairCount monotonic e.2.length)).sum

/-- The flat list of clauses `_make_side` generates, in generation order
(proof-side restatement of the nested fold of `makeSide`). -/
def sideClauses (monotonic : Bool) (wrap : Formula → Formula)
    (cm : List (String × List (Formula × String))) : List Formula :=
  cm.flatMap (fun e =>
    ((if monotonic then permutations2 else combinations2) e.2).map
      (fun pq => sideClause wrap
        (if monotonic then Formula.implication else Formula.equivalence) pq.1 pq.2))

/-- The clause-conjoining fold of `_make_side` over a clause list. -/
def conjFold (acc : Option Formula) (cs : List Formula) : Option Formula :=
  cs.foldl (fun acc clause =>
    match acc with
    | none => some clause
    | some f => some (.conjunction f clause)) acc

/-- Concrete counterexample valuation for claim C1 (fully defined,
prefix length 1, cycle length 1): `a = true; false, false, …` and
`b = false; true, true, …`. -/
def valC1 : Valuation :=
  ⟨[("a", ([some true], [some false])), ("b", ([some false], [some true]))], [], 1, 1⟩

/-- Concrete failing valuation for claim C10: `x = false; unknown, unknown, …`
(prefix length 1, cycle length 1). -/
def valC10 : Valuation := ⟨[("x", ([some false], [none]))], [], 1, 1⟩

/-- A concrete two-occurrence occurrence table, used to witness claim C3. -/
def cmEx : List (String × List (Formula × String)) :=
  [("c", [(.var "p", "x"), (.var "q", "y")])]

/-! ## Theorems -/

/-! ### Helper lemmas -/

theorem holeFree_instantiate_context (c r : Formula) (hr : holeFree r = true) :
    holeFree (instantiate_context c r) = true := by
  induction c <;> simp_all [instantiate_context, holeFree]

theorem instantiate_context_of_holeFree (c r : Formula) (hc : holeFree c = true) :
    instantiate_context c r = c := by
  induction c <;> simp_all [instantiate_context, holeFree]

theorem exceptBindOk {ε α β : Type} (a : α) (f : α → Except ε β) :
    (Except.ok a : Except ε α) >>= f = f a := rfl

theorem instantiate_formula_ok (repl : String → Option Formula) (f : Formula)
    (hf : holeFree f = true) : ∃ g, instantiate_formula repl f = .ok g := by
  induction f with
  | lit b => exact ⟨_, rfl⟩
  | var n => exact ⟨_, rfl⟩
  | hole => simp [holeFree] at hf
  | ctx n body ih =>
    obtain ⟨g, hg⟩ := ih (by simpa [holeFree] using hf)
    rcases hrepl : repl n with _ | r
    · exact ⟨.ctx n g, by simp only [instantiate_formula, hg, exceptBindOk, hrepl]⟩
    · exact ⟨instantiate_context r g,
        by simp only [instantiate_formula, hg, exceptBindOk, hrepl]⟩
  | negation a ih =>
    obtain ⟨g, hg⟩ := ih (by simpa [holeFree] using hf)
    exact ⟨.negation g, by simp only [instantiate_formula, hg, exceptBindOk]⟩
  | next a ih =>
    obtain ⟨g, hg⟩ := ih (by simpa [holeFree] using hf)
    exact ⟨.next g, by simp only [instantiate_formula, hg, exceptBindOk]⟩
  | eventually a ih =>
    obtain ⟨g, hg⟩ := ih (by simpa [holeFree] using hf)
    exact ⟨.eventually g, by simp only [instantiate_formula, hg, exceptBindOk]⟩
  | always a ih =>
    obtain ⟨g, hg⟩ := ih (by simpa [holeFree] using hf)
    exact ⟨.always g, by simp only [instantiate_formula, hg, exceptBindOk]⟩
  | forAllQ a ih =>
    obtain ⟨g, hg⟩ := ih (by simpa [holeFree] using hf)
    exact ⟨.forAllQ g, by simp only [instantiate_formula, hg, exceptBindOk]⟩
  | existsQ a ih =>
    obtain ⟨g, hg⟩ := ih (by simpa [holeFree] using hf)
    exact ⟨.existsQ g, by simp only [instantiate_formula, hg, exceptBindOk]⟩
  | disjunction a b iha ihb =>
    obtain ⟨ga, hga⟩ := iha (by simp [holeFree] at hf; exact hf.1)
    obtain ⟨gb, hgb⟩ := ihb (by simp [holeFree] at hf; exact hf.2)
    exact ⟨.disjunction ga gb, by simp only [instantiate_formula, hga, hgb, exceptBindOk]⟩
  | conjunction a b iha ihb =>
    obtain ⟨ga, hga⟩ := iha (by simp [holeFree] at hf; exact hf.1)
    obtain ⟨gb, hgb⟩ := ihb (by simp [holeFree] at hf; exact hf.2)
    exact ⟨.conjunction ga gb, by simp only [instantiate_formula, hga, hgb, exceptBindOk]⟩
  | implication a b iha ihb =>
    obtain ⟨ga, hga⟩ := iha (by simp [holeFree] at hf; exact hf.1)
    obtain ⟨gb, hgb⟩ := ihb (by simp [holeFree] at hf; exact hf.2)
    exact ⟨.implication ga gb, by simp only [instantiate_formula, hga, hgb, exceptBindOk]⟩
  | exclusion a b iha ihb =>
    obtain ⟨ga, hga⟩ := iha (by simp [holeFree] at hf; exact hf.1)
    obtain ⟨gb, hgb⟩ := ihb (by simp [holeFree] at hf; exact hf.2)
    exact ⟨.exclusion ga gb, by simp only [instantiate_formula, hga, hgb, exceptBindOk]⟩
  | equivalence a b iha ihb =>
    obtain ⟨ga, hga⟩ := iha (by simp [holeFree] at hf; exact hf.1)
    obtain ⟨gb, hgb⟩ := ihb (by simp [holeFree] at hf; exact hf.2)
    exact ⟨.equivalence ga gb, by simp only [instantiate_formula, hga, hgb, exceptBindOk]⟩
  | untl a b iha ihb =>
    obtain ⟨ga, hga⟩ := iha (by simp [holeFree] at hf; exact hf.1)
    obtain ⟨gb, hgb⟩ := ihb (by simp [holeFree] at hf; exact hf.2)
    exact ⟨.untl ga gb, by simp only [instantiate_formula, hga, hgb, exceptBindOk]⟩
  | wuntl a b iha ihb =>
    obtain ⟨ga, hga⟩ := iha (by simp [holeFree] at hf; exact hf.1)
    obtain ⟨gb, hgb⟩ := ihb (by simp [holeFree] at hf; exact hf.2)
    exact ⟨.wuntl ga gb, by simp only [instantiate_formula, hga, hgb, exceptBindOk]⟩
  | release a b iha ihb =>
    obtain ⟨ga, hga⟩ := iha (by simp [holeFree] at hf; exact hf.1)
    obtain ⟨gb, hgb⟩ := ihb (by simp [holeFree] at hf; exact hf.2)
    exact ⟨.release ga gb, by simp only [instantiate_formula, hga, hgb, exceptBindOk]⟩
  | srelease a b iha ihb =>
    obtain ⟨ga, hga⟩ := iha (by simp [holeFree] at hf; exact hf.1)
    obtain ⟨gb, hgb⟩ := ihb (by simp [holeFree] at hf; exact hf.2)
    exact ⟨.srelease ga gb, by simp only [instantiate_formula, hga, hgb, exceptBindOk]⟩

/-! ### Claim theorems -/

/-- Claim C1 (code bug).  On the fully-defined lasso `a = true; false^ω`,
`b = false; true^ω` (prefix length 1, cycle length 1), `evaluate` of
`Until(a, b)` returns `unknown` at prefix position 0, although the
classical two-valued value of `a U b` at position 0 on that trace is `true`
(second conjunct): the "Propagate in the prefix" loop of `evaluate_until`
writes its results into `new_cycle` instead of `new_prefix`, so the prefix
keeps its initial `None`. -/
theorem untilNotClassical :
    valC1.evaluate (.untl (.var "a") (.var "b")) = .ok ([none], [some true])
    ∧ untilSat (lassoWord [true] [false]) (lassoWord [false] [true]) 0 := by
  refine ⟨by rfl, 1, by omega, by decide, ?_⟩
  intro i h1 h2
  interval_cases i
  decide

/-- Claim C2 (counterexample).  The claim states
`And(false, unknown) = false`; the code's `_conjunction` returns `unknown`
whenever either operand is unknown, so at the concrete operands
`(false, unknown)` the claimed equation fails. -/
theorem conjunctionAbsorbsFalse : tfConjunction (some false) none ≠ some false := by
  decide

/-- Claim C2 (amended).  Pointwise conjunction maps any pair with an
unknown operand to unknown (in particular `And(false, unknown)` and
`And(unknown, false)` are `unknown`, not `false`, and
`And(true, unknown) = unknown`); disjunction short-circuits on a true
operand (`Or(true, unknown) = true`) but not on false
(`Or(false, unknown) = unknown`); implication satisfies
`Implies(a, b) = Or(Not(a), b)` for all operands. -/
theorem kleeneTableAmended :
    (∀ x : Option Bool, tfConjunction x none = none ∧ tfConjunction none x = none)
    ∧ tfConjunction (some true) none = none
    ∧ tfDisjunction (some true) none = some true
    ∧ tfDisjunction none (some true) = some true
    ∧ tfDisjunction (some false) none = none
    ∧ (∀ a b : Option Bool, tfImplication a b = tfDisjunction (tfNegation a) b) := by
  decide

/-- Claim C5 (confirmed).  For every context name and hole-free formulas
`f` and `r`, `instantiate_formula` on `Context(name, f)` with the singleton
replacement map `{name: r}` succeeds and returns exactly
`instantiate_context(r, f)`. -/
theorem substitutionSound (name : String) (f r : Formula)
    (hf : holeFree f = true) (hr : holeFree r = true) :
    instantiate_formula (fun s => if s = name then some r else none) (.ctx name f)
      = .ok (instantiate_context r f) := by
  obtain ⟨g, hg⟩ := instantiate_formula_ok (fun s => if s = name then some r else none) f hf
  simp only [instantiate_formula, hg, exceptBindOk, if_pos]
  rw [instantiate_context_of_holeFree r g hr, instantiate_context_of_holeFree r f hr]

/-- Witness for claim C5 at `name = "c"`, `f = Variable p`,
`r = Variable q`. -/
theorem substitutionSoundWitness :
    instantiate_formula (fun s => if s = "c" then some (.var "q") else none)
        (.ctx "c" (.var "p"))
      = .ok (instantiate_context (.var "q") (.var "p")) :=
  substitutionSound "c" (.var "p") (.var "q") (by decide) (by decide)

/-- Claim C6 (counterexample).  The claim states that `instantiate_context`
fails when more than one `Hole` is reachable without an intervening
`Context` boundary; on the concrete context `And(Hole, Hole)` the code
instead silently substitutes the replacement for both holes. -/
theorem instantiateContextSilent :
    instantiate_context (.conjunction .hole .hole) (.var "x")
      = .conjunction (.var "x") (.var "x") := by
  decide

/-- Claim C6 (amended).  `instantiate_context` never fails: it performs no
invariant check and silently substitutes the replacement for every
reachable `Hole` (also through `Context` boundaries); with a hole-free
replacement the result is hole-free, and on a context with no hole (in
particular at most one, that one absent) it returns the context
unchanged.  For a context with at most one hole it replaces that hole. -/
theorem instantiateContextTotal (c r : Formula) (hr : holeFree r = true) :
    holeFree (instantiate_context c r) = true
    ∧ (holeFree c = true → instantiate_context c r = c) :=
  ⟨holeFree_instantiate_context c r hr, fun hc => instantiate_context_of_holeFree c r hc⟩

/-- Witness for claim C6's amended theorem at `c = Variable y`,
`r = Variable x`. -/
theorem instantiateContextTotalWitness :
    holeFree (instantiate_context (.var "y") (.var "x")) = true
    ∧ instantiate_context (.var "y") (.var "x") = .var "y" :=
  ⟨(instantiateContextTotal (.var "y") (.var "x") (by decide)).1,
   (instantiateContextTotal (.var "y") (.var "x") (by decide)).2 (by decide)⟩

/-- Claim C7 (code bug).  `simplify` computes the simplified children but,
when no top-level rule fires, returns the *original* node: on
`Until(p, Or(false, q))` no `Until` rule applies and the result still
contains `Or(false, q)`, although the child alone simplifies to `q`
(second conjunct), contradicting the claimed bottom-up rebuild. -/
theorem simplifyDiscardsChild :
    simplify 10 (.untl (.var "p") (.disjunction (.lit false) (.var "q"))) []
      = some (.untl (.var "p") (.disjunction (.lit false) (.var "q")))
    ∧ simplify 10 (.disjunction (.lit false) (.var "q")) [] = some (.var "q") := by
  exact ⟨by decide, by decide⟩

/-- Claim C8 (code bug).  `simplify` never terminates on a formula whose
head is a `Context` node: the argument-simplification step recurses on the
whole formula itself, so no amount of fuel (recursion depth) produces a
result — the Python call raises `RecursionError` instead of returning a
formula. -/
theorem simplifyCtxDiverges (fuel : Nat) (name : String) (body : Formula)
    (valuation : List (String × Bool)) :
    simplify fuel (.ctx name body) valuation = none := by
  induction fuel with
  | zero => rfl
  | succ n ih => simp [simplify, ih]

/-- Claim C10 (code bug).  On the valuation `x = false; unknown^ω` (prefix
length 1, cycle length 1) the formula `Eventually(x)` makes
`evaluate_eventually` rebind its whole `new_prefix` list to `None`, and
`tuple(None)` raises a `TypeError`: `evaluate` raises instead of returning
a prefix/cycle pair. -/
theorem eventuallyRaises :
    valC10.evaluate (.eventually (.var "x")) = .error .typeErr := by
  rfl

theorem translateF_noCtx (f : Formula) (st : TState) (h : noCtx f = true) :
    translateF st f = (f, st) := by
  induction f generalizing st <;> simp_all [translateF, noCtx]

/-- Claim C4 (counterexample).  The structurally distinct arguments
`Variable ab` and `Variable "ab"` (a quoted identifier) of the same context
variable `c` are mapped to the *same* fresh proposition `"c[ab]"`, because
the rendering of the argument strips double quotes before building the
name; the occurrence table gets two entries sharing one proposition, and
the reverse index keeps only the later argument.  This refutes the claimed
"only if structurally equal" direction. -/
theorem dedupCollision :
    translateF initState (.conjunction (.ctx "c" (.var "ab")) (.ctx "c" (.var "\"ab\"")))
      = (.conjunction (.var "\"c[ab]\"") (.var "\"c[ab]\""),
         ⟨[("c", [(.var "ab", "\"c[ab]\""), (.var "\"ab\"", "\"c[ab]\"")])],
          [("\"c[ab]\"", ("c", .var "\"ab\""))]⟩)
    ∧ (Formula.var "ab" : Formula) ≠ .var "\"ab\"" := by
  exact ⟨by rfl, by decide⟩

/-- Claim C4 (amended).  Occurrences of a context variable with
structurally equal translated arguments are mapped to the same fresh
proposition (structurally distinct arguments may also collide when their
quote-stripped renderings coincide); in particular, translating a formula
with two structurally equal occurrences of `Context(c, arg)` creates
exactly one fresh proposition, exactly one occurrence-table entry for `c`,
and the reverse index maps that proposition back to `(c, arg)`. -/
theorem dedupAmended (c : String) (arg : Formula) (h : noCtx arg = true) :
    translateF initState (.conjunction (.ctx c arg) (.ctx c arg))
      = (.conjunction (.var (freshName c arg)) (.var (freshName c arg)),
         ⟨[(c, [(arg, freshName c arg)])], [(freshName c arg, (c, arg))]⟩) := by
  simp [translateF, translateF_noCtx arg _ h, initState, ctxMapAdd, dictSet, List.lookup]

/-- Witness for claim C4's amended theorem at `c = "c"`,
`arg = Variable p`. -/
theorem dedupAmendedWitness :
    translateF initState (.conjunction (.ctx "c" (.var "p")) (.ctx "c" (.var "p")))
      = (.conjunction (.var (freshName "c" (.var "p"))) (.var (freshName "c" (.var "p"))),
         ⟨[("c", [(.var "p", freshName "c" (.var "p"))])],
          [(freshName "c" (.var "p"), ("c", .var "p"))]⟩) :=
  dedupAmended "c" (.var "p") (by decide)

theorem dictSet_snd_mem {K V : Type} [DecidableEq K] (m : List (K × V)) (k : K) (v : V)
    (x : V) (hx : x ∈ (dictSet m k v).map Prod.snd) :
    x ∈ m.map Prod.snd ∨ x = v := by
  induction m with
  | nil =>
    simp [dictSet] at hx
    right; exact hx
  | cons e rest ih =>
    obtain ⟨k', v'⟩ := e
    by_cases hk : k' = k
    · simp only [dictSet, if_pos hk, List.map_cons, List.mem_cons] at hx
      rcases hx with h | h
      · right; exact h
      · left; simp [h]
    · simp only [dictSet, if_neg hk, List.map_cons, List.mem_cons] at hx
      rcases hx with h | h
      · left; simp [h]
      · rcases ih h with h2 | h2
        · left; simp [h2]
        · right; exact h2

theorem ctxMapValues_add_mem (cm : List (String × List (Formula × String)))
    (name : String) (arg : Formula) (v : String)
    (x : String) (hx : x ∈ ctxMapValues (ctxMapAdd cm name arg v)) :
    x ∈ ctxMapValues cm ∨ x = v := by
  induction cm with
  | nil =>
    simp [ctxMapAdd, ctxMapValues] at hx
    right; exact hx
  | cons e rest ih =>
    obtain ⟨n', inner⟩ := e
    by_cases hn : n' = name
    · simp only [ctxMapAdd, if_pos hn, ctxMapValues, List.flatMap_cons,
        List.mem_append] at hx
      simp only [ctxMapValues, List.flatMap_cons, List.mem_append]
      rcases hx with h | h
      · rcases dictSet_snd_mem inner arg v x h with h2 | h2
        · left; left; exact h2
        · right; exact h2
      · left; right; exact h
    · simp only [ctxMapAdd, if_neg hn, ctxMapValues, List.flatMap_cons,
        List.mem_append] at hx
      simp only [ctxMapValues, List.flatMap_cons, List.mem_append]
      rcases hx with h | h
      · left; left; exact h
      · rcases ih h with h2 | h2
        · simp only [ctxMapValues] at h2
          left; right; exact h2
        · right; exact h2

theorem startsWithQuote_freshName (c : String) (arg : Formula) :
    startsWithQuote (freshName c arg) = true := by
  have hq : ("\"" : String).data = ['"'] := rfl
  simp [startsWithQuote, freshName, String.data_append, hq]

theorem translateF_quoted (f : Formula) :
    ∀ st : TState, (∀ n ∈ ctxMapValues st.ctx_map, startsWithQuote n = true) →
    ∀ n ∈ ctxMapValues (translateF st f).2.ctx_map, startsWithQuote n = true := by
  induction f with
  | lit b => intro st h; exact h
  | var nm => intro st h; exact h
  | hole => intro st h; exact h
  | ctx name body ih =>
    intro st h n hn
    have hbody := ih st h
    rcases hb : translateF st body with ⟨arg, st1⟩
    have h1 : ∀ n ∈ ctxMapValues st1.ctx_map, startsWithQuote n = true := by
      rw [hb] at hbody; exact hbody
    have hshape : translateF st (.ctx name body)
        = (match ((st1.ctx_map.lookup name).getD []).lookup arg with
           | some replVar => (.var replVar, st1)
           | none =>
             (.var (freshName name arg),
              ⟨ctxMapAdd st1.ctx_map name arg (freshName name arg),
               dictSet st1.ctx_ap_map (freshName name arg) (name, arg)⟩)) := by
      simp only [translateF, hb]
    rw [hshape] at hn
    rcases hl : ((st1.ctx_map.lookup name).getD []).lookup arg with _ | rv
    · rw [hl] at hn
      dsimp only at hn
      rcases ctxMapValues_add_mem st1.ctx_map name arg (freshName name arg) n hn with h2 | h2
      · exact h1 n h2
      · rw [h2]; exact startsWithQuote_freshName name arg
    · rw [hl] at hn
      dsimp only at hn
      exact h1 n hn
  | negation a ih => intro st h; exact ih st h
  | next a ih => intro st h; exact ih st h
  | eventually a ih => intro st h; exact ih st h
  | always a ih => intro st h; exact ih st h
  | forAllQ a ih => intro st h; exact ih st h
  | existsQ a ih => intro st h; exact ih st h
  | disjunction a b iha ihb => intro st h; exact ihb (translateF st a).2 (iha st h)
  | conjunction a b iha ihb => intro st h; exact ihb (translateF st a).2 (iha st h)
  | implication a b iha ihb => intro st h; exact ihb (translateF st a).2 (iha st h)
  | exclusion a b iha ihb => intro st h; exact ihb (translateF st a).2 (iha st h)
  | equivalence a b iha ihb => intro st h; exact ihb (translateF st a).2 (iha st h)
  | untl a b iha ihb => intro st h; exact ihb (translateF st a).2 (iha st h)
  | wuntl a b iha ihb => intro st h; exact ihb (translateF st a).2 (iha st h)
  | release a b iha ihb => intro st h; exact ihb (translateF st a).2 (iha st h)
  | srelease a b iha ihb => intro st h; exact ihb (translateF st a).2 (iha st h)

/-- Claim C9 (counterexample).  The grammar's `ID` token admits quoted
identifiers, and the quoted user variable `"c[p]"` occurring in the left
input formula is exactly the fresh proposition name created for the
occurrence `Context(c, Variable p)`: fresh names can collide with
user-chosen quoted names. -/
theorem freshNameCollision :
    "\"c[p]\"" ∈ varNames (.conjunction (.var "\"c[p]\"") (.ctx "c" (.var "p")))
    ∧ "\"c[p]\"" ∈ ctxMapValues
        (translate true ltlWrap
          (.conjunction (.var "\"c[p]\"") (.ctx "c" (.var "p"))) (.lit true)).2.2.2.ctx_map := by
  exact ⟨by decide, by decide⟩

/-- Claim C9 (amended).  Every fresh proposition name created in the
occurrence table starts with a double-quote character, so it differs from
every `Variable` name of the input formulas that is not written as a
quoted identifier (i.e. does not start with `"`); quoted user identifiers
can collide. -/
theorem freshNamesNoCollision (monotonic : Bool) (wrap : Formula → Formula)
    (left right : Formula) (v : String)
    (_hv : v ∈ varNames left ++ varNames right)
    (hq : startsWithQuote v = false) :
    v ∉ ctxMapValues (translate monotonic wrap left right).2.2.2.ctx_map := by
  intro hmem
  have h1 : ∀ n ∈ ctxMapValues (translateF initState left).2.ctx_map,
      startsWithQuote n = true :=
    translateF_quoted left initState (by simp [initState, ctxMapValues])
  have h2 := translateF_quoted right (translateF initState left).2 h1
  have h3 : startsWithQuote v = true := h2 v hmem
  rw [hq] at h3
  exact Bool.false_ne_true h3

/-- Witness for claim C9's amended theorem: the unquoted user variable `p`
of the left input is not among the fresh names. -/
theorem freshNamesNoCollisionWitness :
    "p" ∉ ctxMapValues (translate true ltlWrap (.var "p") (.lit true)).2.2.2.ctx_map :=
  freshNamesNoCollision true ltlWrap (.var "p") (.lit true) "p" (by decide) (by decide)

theorem perm2Aux_length {α : Type} (pre l : List α) :
    (perm2Aux pre l).length + l.length = l.length * (pre.length + l.length) := by
  induction l generalizing pre with
  | nil => simp [perm2Aux]
  | cons x xs ih =>
    have h := ih (pre ++ [x])
    simp only [List.length_append, List.length_cons, List.length_nil] at h
    simp only [perm2Aux, List.length_append, List.length_map, List.length_cons]
    rw [Nat.succ_mul]
    have heq : pre.length + 1 + xs.length = pre.length + (xs.length + 1) := by omega
    rw [heq] at h
    linarith

theorem permutations2_length {α : Type} (l : List α) :
    (permutations2 l).length = l.length * (l.length - 1) := by
  cases l with
  | nil => rfl
  | cons x xs =>
    have h := perm2Aux_length ([] : List α) (x :: xs)
    simp only [List.length_nil, Nat.zero_add, List.length_cons] at h
    have h2 : (xs.length + 1) * (xs.length + 1)
        = (xs.length + 1) * xs.length + (xs.length + 1) := Nat.mul_succ _ _
    rw [h2] at h
    have h3 := Nat.add_right_cancel h
    simpa [permutations2] using h3

theorem combinations2_length {α : Type} (l : List α) :
    (combinations2 l).length = Nat.choose l.length 2 := by
  induction l with
  | nil => rfl
  | cons x xs ih =>
    simp only [combinations2, List.length_append, List.length_map, ih, List.length_cons]
    rw [Nat.choose_succ_succ, Nat.choose_one_right]

theorem sideClauses_length (monotonic : Bool) (wrap : Formula → Formula)
    (cm : List (String × List (Formula × String))) :
    (sideClauses monotonic wrap cm).length = sideCount monotonic cm := by
  induction cm with
  | nil => cases monotonic <;> rfl
  | cons e rest ih =>
    cases monotonic <;>
      simp_all [sideClauses, sideCount, pairCount, List.flatMap_cons,
        permutations2_length, combinations2_length, Nat.choose_two_right]

theorem conjFold_append (acc : Option Formula) (cs ds : List Formula) :
    conjFold acc (cs ++ ds) = conjFold (conjFold acc cs) ds := by
  simp [conjFold, List.foldl_append]

theorem makeSide_eq_conjFold (monotonic : Bool) (wrap : Formula → Formula)
    (cm : List (String × List (Formula × String))) :
    makeSide monotonic wrap cm
      = (conjFold none (sideClauses monotonic wrap cm)).getD (.lit true) := by
  have inner : ∀ (ps : List ((Formula × String) × (Formula × String)))
      (acc : Option Formula),
      ps.foldl (fun acc pq =>
        let clause := sideClause wrap
          (if monotonic then Formula.implication else Formula.equivalence) pq.1 pq.2
        match acc with
        | none => some clause
        | some f => some (.conjunction f clause)) acc
      = conjFold acc (ps.map (fun pq => sideClause wrap
          (if monotonic then Formula.implication else Formula.equivalence) pq.1 pq.2)) := by
    intro ps
    induction ps with
    | nil => intro acc; rfl
    | cons p ps ih =>
      intro acc
      simp only [List.foldl_cons, List.map_cons, conjFold]
      exact ih _
  have outer : ∀ (cml : List (String × List (Formula × String))) (acc : Option Formula),
      cml.foldl (fun acc e =>
        ((if monotonic then permutations2 else combinations2) e.2).foldl (fun acc pq =>
          let clause := sideClause wrap
            (if monotonic then Formula.implication else Formula.equivalence) pq.1 pq.2
          match acc with
          | none => some clause
          | some f => some (.conjunction f clause)) acc) acc
      = conjFold acc (sideClauses monotonic wrap cml) := by
    intro cml
    induction cml with
    | nil => intro acc; rfl
    | cons e rest ih =>
      intro acc
      simp only [List.foldl_cons, sideClauses, List.flatMap_cons]
      rw [inner, ih, ← conjFold_append]
      rfl
  simp only [makeSide]
  rw [outer cm none]

theorem spineCount_of_not_isConj (f : Formula) (hf : isConj f = false) :
    spineCount f = 1 := by
  cases f <;> simp_all [spineCount, isConj]

theorem conjFold_some_spine (cs : List Formula) (hcs : ∀ c ∈ cs, isConj c = false)
    (f : Formula) :
    ∃ g, conjFold (some f) cs = some g ∧ spineCount g = spineCount f + cs.length := by
  induction cs generalizing f with
  | nil => exact ⟨f, rfl, by simp [conjFold]⟩
  | cons c cs ih =>
    have hc : isConj c = false := hcs c (by simp)
    obtain ⟨g, hg, hsp⟩ := ih (fun d hd => hcs d (by simp [hd])) (.conjunction f c)
    refine ⟨g, by simpa [conjFold, List.foldl_cons] using hg, ?_⟩
    rw [hsp]
    simp [spineCount, spineCount_of_not_isConj c hc]
    omega

theorem conjFold_none_spine (cs : List Formula) (hcs : ∀ c ∈ cs, isConj c = false)
    (hne : cs ≠ []) :
    ∃ g, conjFold none cs = some g ∧ spineCount g = cs.length := by
  cases cs with
  | nil => exact absurd rfl hne
  | cons c cs =>
    obtain ⟨g, hg, hsp⟩ :=
      conjFold_some_spine cs (fun d hd => hcs d (by simp [hd])) c
    refine ⟨g, by simpa [conjFold, List.foldl_cons] using hg, ?_⟩
    rw [hsp, spineCount_of_not_isConj c (hcs c (by simp))]
    simp only [List.length_cons]
    omega

/-- Claim C3 (confirmed).  Every clause of `_make_side` is the premise
wrap applied to an implication node, so it suffices that the wrap never
turns an *implication* into a top-level conjunction — true of all three
logics of the repo: `Always(...)` for LTL, `ForAll(Always(...))` for CTL,
and the identity for propositional logic.  Under that hypothesis the
consistency condition consists of exactly `Σ_c pairCount(n_c)` conjoined
clauses, where `n_c` is the number of distinct occurrence arguments of
context `c` and `pairCount` is `n·(n−1)` in monotonic mode and
`n·(n−1)/2` in general mode (a context with fewer than two occurrences
contributes `0`); when that total is zero the returned condition is
exactly `Literal(true)`. -/
theorem consistencyCardinality (monotonic : Bool) (wrap : Formula → Formula)
    (cm : List (String × List (Formula × String)))
    (hw : ∀ a b : Formula, isConj (wrap (.implication a b)) = false) :
    (sideCount monotonic cm = 0 → makeSide monotonic wrap cm = .lit true)
    ∧ (0 < sideCount monotonic cm →
        spineCount (makeSide monotonic wrap cm) = sideCount monotonic cm) := by
  have hlen := sideClauses_length monotonic wrap cm
  have hclause : ∀ c ∈ sideClauses monotonic wrap cm, isConj c = false := by
    intro c hc
    simp only [sideClauses, List.mem_flatMap, List.mem_map] at hc
    obtain ⟨e, _, pq, _, hpq⟩ := hc
    rw [← hpq]
    exact hw _ _
  constructor
  · intro h0
    have hnil : sideClauses monotonic wrap cm = [] :=
      List.eq_nil_of_length_eq_zero (by rw [hlen, h0])
    rw [makeSide_eq_conjFold, hnil]
    rfl
  · intro hpos
    have hne : sideClauses monotonic wrap cm ≠ [] := by
      intro h
      rw [h] at hlen
      simp only [List.length_nil] at hlen
      omega
    obtain ⟨g, hg, hsp⟩ := conjFold_none_spine _ hclause hne
    rw [makeSide_eq_conjFold, hg]
    simpa [hsp] using hlen

/-- Witness for claim C3: a context with two occurrences yields two
clauses in monotonic mode under the LTL wrap and one clause in general
mode under the propositional identity wrap, and an empty table yields
`Literal(true)`. -/
theorem consistencyCardinalityWitness :
    spineCount (makeSide true ltlWrap cmEx) = sideCount true cmEx
    ∧ spineCount (makeSide false boolWrap cmEx) = sideCount false cmEx
    ∧ makeSide true ltlWrap ([] : List (String × List (Formula × String))) = .lit true :=
  ⟨(consistencyCardinality true ltlWrap cmEx (fun _ _ => rfl)).2 (by decide),
   (consistencyCardinality false boolWrap cmEx (fun _ _ => rfl)).2 (by decide),
   (consistencyCardinality true ltlWrap [] (fun _ _ => rfl)).1 (by decide)⟩

end Ctxform
